import Mathlib

/-!
Verification of the surface geometry subsystem of an MEG/EEG toolkit
(`mne/surface.py`): BEM surface codec, FreeSurfer mesh/curvature codecs,
geometry completion, icosphere tessellation and source-space decimation.

The Python source is shallowly embedded: byte-oriented readers work on
`List ℕ` byte streams, numpy float arrays are modelled over exact `ℚ`
(or a generic linearly ordered field instantiated at `ℝ` for the
tessellation, whose normalisation step divides by a square root), and
fallible code returns `Except Err`.
-/

set_option maxHeartbeats 1600000
set_option maxRecDepth 4096

/-- Python exception kinds raised by the embedded code paths.
`indexError` models numpy/list out-of-bounds indexing,
`valueError` / `runtimeError` carry the message of the corresponding
`raise`, `unboundLocalError` models referencing a local variable on a
path where it was never assigned, and `shortRead` models a byte-stream
read that runs out of data. -/
inductive Err where
  | indexError : Err
  | valueError : String → Err
  | runtimeError : String → Err
  | unboundLocalError : Err
  | shortRead : Err
  deriving DecidableEq, Repr

/-! ## Byte-stream primitives

The FreeSurfer readers consume binary files through `np.fromfile` and a
3-byte helper `_fread3`.  A file is a `List ℕ` of bytes (each `< 256`).
A read that needs more bytes than remain is modelled as `Err.shortRead`;
the claims under verification only concern well-formed files that hold
enough data. -/

/-- Take exactly `k` bytes off the stream, or fail. -/
def readBytes (k : ℕ) (bs : List ℕ) : Except Err (List ℕ × List ℕ) :=
  if k ≤ bs.length then .ok (bs.take k, bs.drop k) else .error .shortRead

/-- Big-endian value of a byte list (most significant byte first). -/
def beVal (l : List ℕ) : ℕ :=
  l.foldl (fun a b => a * 256 + b) 0

/-- Two's-complement reinterpretation of a `w`-byte unsigned value. -/
def toSigned (w : ℕ) (v : ℕ) : ℤ :=
  if v < 2 ^ (w * 8 - 1) then (v : ℤ) else (v : ℤ) - 2 ^ (w * 8)

/-- `_fread3`: read 3 bytes, big-endian: `(b1 << 16) + (b2 << 8) + b3`. -/
def fread3 (bs : List ℕ) : Except Err (ℕ × List ℕ) :=
  (readBytes 3 bs).map (fun p => (beVal p.1, p.2))

/-- Read a big-endian 4-byte signed integer (numpy dtype `>i4`). -/
def readI4 (bs : List ℕ) : Except Err (ℤ × List ℕ) :=
  (readBytes 4 bs).map (fun p => (toSigned 4 (beVal p.1), p.2))

/-- Read a big-endian 2-byte signed integer (numpy dtype `>i2`). -/
def readI2 (bs : List ℕ) : Except Err (ℤ × List ℕ) :=
  (readBytes 2 bs).map (fun p => (toSigned 2 (beVal p.1), p.2))

/-- An IEEE-754 single-precision value, decoded exactly: every finite
float32 is an exact rational; infinities and NaNs are kept symbolic. -/
inductive F32 where
  | fin : ℚ → F32
  | inf : F32
  | negInf : F32
  | nan : F32
  deriving DecidableEq, Repr

/-- Exact decoding of a 32-bit word (as a natural number) to `F32`:
sign bit, 8 exponent bits, 23 mantissa bits; normal value
`(2^23 + m) * 2^(e - 150)`, subnormal value `m * 2^(-149)`. -/
def decodeF32 (b : ℕ) : F32 :=
  let sign : ℕ := b / 2 ^ 31 % 2
  let ex : ℕ := b / 2 ^ 23 % 2 ^ 8
  let mant : ℕ := b % 2 ^ 23
  if ex = 255 then
    if mant = 0 then (if sign = 1 then .negInf else .inf) else .nan
  else
    let mag : ℚ :=
      if ex = 0 then (mant : ℚ) / 2 ^ 149
      else ((2 ^ 23 + mant : ℕ) : ℚ) * 2 ^ ex / 2 ^ 150
    .fin (if sign = 1 then -mag else mag)

/-- numpy `curv != 0` elementwise on float data: NaN and the infinities
compare unequal to zero. -/
def f32Ne0 : F32 → Bool
  | .fin q => q ≠ 0
  | _ => true

/-- Read a big-endian 4-byte float (numpy dtype `>f4`). -/
def readF32 (bs : List ℕ) : Except Err (F32 × List ℕ) :=
  (readBytes 4 bs).map (fun p => (decodeF32 (beVal p.1), p.2))

/-- Read `n` consecutive values with a one-value reader. -/
def readMany {α : Type} (rd : List ℕ → Except Err (α × List ℕ)) :
    ℕ → List ℕ → Except Err (List α × List ℕ)
  | 0, bs => .ok ([], bs)
  | n + 1, bs => do
    let (v, bs) ← rd bs
    let (vs, bs) ← readMany rd n bs
    pure (v :: vs, bs)

/-! ## FreeSurfer curvature codec (`read_curvature`) -/

/-- `read_curvature`, from the source:
magic `16777215` selects the full-size variant (a 3-int32 header whose
first entry is the vertex count, then per-vertex big-endian float32
values); any other magic is itself the vertex count in the packed
variant (skip one more 3-byte field, then per-vertex big-endian int16
values divided by 100).  The result is binarized as `1 - (curv != 0)`,
i.e. 1 exactly where the divided value is zero.
This is Python 2 code (`xrange` elsewhere in the module, no future
division import), so `np.fromfile(fobj, ">i2", vnum) / 100` is numpy
*integer* division of the int16 array — floor division, modelled with
`Int.fdiv` — not the `1/100` scaling of true division: every raw value
in `0 ≤ i ≤ 99` divides to 0 and is binarized to 1. -/
def read_curvature (bs : List ℕ) : Except Err (List ℤ) :=
  match fread3 bs with
  | .error e => .error e
  | .ok (magic, bs) =>
    if magic = 16777215 then
      match readI4 bs with
      | .error e => .error e
      | .ok (vnum, bs) =>
        match readI4 bs with
        | .error e => .error e
        | .ok (_, bs) =>
          match readI4 bs with
          | .error e => .error e
          | .ok (_, bs) =>
            if 0 ≤ vnum then
              match readMany readF32 vnum.toNat bs with
              | .error e => .error e
              | .ok (curv, _) =>
                .ok (curv.map (fun c => 1 - (if f32Ne0 c then 1 else 0)))
            else .error (.valueError "negative count")
    else
      match fread3 bs with
      | .error e => .error e
      | .ok (_, bs) =>
        match readMany readI2 magic bs with
        | .error e => .error e
        | .ok (ints, _) =>
          let curv : List ℤ := ints.map (fun i => Int.fdiv i 100)
          .ok (curv.map (fun i => 1 - (if i ≠ 0 then 1 else 0)))

/-! Encoders for well-formed curvature files, used to state the codec
claims: they build the byte stream the reader consumes. -/

/-- Encode a value on `k` big-endian bytes. -/
def encBE : ℕ → ℕ → List ℕ
  | 0, _ => []
  | k + 1, v => v / 256 ^ k % 256 :: encBE k v

/-- Encode a 3-byte big-endian value (inverse of `_fread3`). -/
def enc3 (v : ℕ) : List ℕ := encBE 3 v

/-- Encode a 4-byte big-endian signed integer. -/
def encI4 (v : ℤ) : List ℕ := encBE 4 (v % 2 ^ 32).toNat

/-- A well-formed full-size-sentinel curvature file: magic `16777215`,
int32 header `(vnum, a, b)` with `vnum = groups.length`, then one
4-byte group per vertex holding the raw float32 bits. -/
def encodeFullCurv (a b : ℤ) (groups : List (List ℕ)) : List ℕ :=
  enc3 16777215 ++ encI4 groups.length ++ encI4 a ++ encI4 b ++ groups.flatten

/-- A well-formed packed curvature file: 3-byte vertex count, one
skipped 3-byte field, then one 2-byte group per vertex holding the raw
int16 bits. -/
def encodePackedCurv (fnum : ℕ) (groups : List (List ℕ)) : List ℕ :=
  enc3 groups.length ++ enc3 fnum ++ groups.flatten

/-! ## FreeSurfer surface codec (`read_surface`) -/

/-- `fobj.readline()`: consume bytes up to and including the first
newline (byte 10); at end of file the remainder is returned. -/
def readLine : List ℕ → List ℕ × List ℕ
  | [] => ([], [])
  | b :: r =>
    if b = 10 then ([10], r)
    else
      let p := readLine r
      (b :: p.1, p.2)

/-- `reshape(-1, 3)` on a flat sequence (lengths are multiples of 3 by
construction in every call site). -/
def group3 {α : Type} : List α → List (α × α × α)
  | a :: b :: c :: r => (a, b, c) :: group3 r
  | _ => []

/-- `reshape(nquad, 4)` on a flat sequence. -/
def group4 {α : Type} : List α → List (α × α × α × α)
  | a :: b :: c :: d :: r => (a, b, c, d) :: group4 r
  | _ => []

/-- The quad face-splitting loop of `read_surface`: each quad becomes
two triangles, chosen by the parity of the quad's first index —
even: `(v0,v1,v3)` and `(v2,v3,v1)`; odd: `(v0,v1,v2)` and
`(v0,v2,v3)`. -/
def splitQuads : List (ℕ × ℕ × ℕ × ℕ) → List (ℕ × ℕ × ℕ)
  | [] => []
  | (v0, v1, v2, v3) :: r =>
    if v0 % 2 = 0 then (v0, v1, v3) :: (v2, v3, v1) :: splitQuads r
    else (v0, v1, v2) :: (v0, v2, v3) :: splitQuads r

/-- Result of `read_surface`: vertex coordinates and faces.  Quad-file
coordinates are 2-byte integers scaled by `1/100` (embedded as exact
finite floats); triangle-file coordinates are raw float32 values. -/
structure FsMesh where
  coords : List (F32 × F32 × F32)
  faces : List (ℤ × ℤ × ℤ)
  deriving DecidableEq, Repr

/-- `read_surface`, from the source.  Magic `16777215` or `16777213`
selects the quad variant: 3-byte vertex and quad counts, int16
coordinates scaled by `1/100`, quads of four 3-byte indices split by
`splitQuads`.  Magic `16777214` selects the triangle variant: two text
lines, int32 counts, float32 coordinates, int32 faces.  Any other magic
raises `ValueError`.  After the branches the source logs
`create_stamp.strip()` — but `create_stamp` is only assigned in the
triangle branch, so on the quad path the local is unbound and the
reference raises `UnboundLocalError` before the function can return. -/
def read_surface (bs : List ℕ) : Except Err FsMesh := do
  let (magic, bs) ← fread3 bs
  if magic = 16777215 ∨ magic = 16777213 then
    let (nvert, bs) ← fread3 bs
    let (nquad, bs) ← fread3 bs
    let (craw, bs) ← readMany readI2 (nvert * 3) bs
    let _coords := group3 (craw.map (fun i => F32.fin ((i : ℚ) / 100)))
    let (qraw, _) ← readMany fread3 (nquad * 4) bs
    let _faces := splitQuads (group4 qraw)
    -- logger.info('Triangle file: %s ...' % (create_stamp.strip(), ...)):
    -- create_stamp was never assigned on this path
    .error .unboundLocalError
  else if magic = 16777214 then
    let (_create_stamp, bs) := readLine bs
    let (_, bs) := readLine bs
    let (vnum, bs) ← readI4 bs
    let (fnum, bs) ← readI4 bs
    if 0 ≤ vnum ∧ 0 ≤ fnum then
      let (cr, bs) ← readMany readF32 (vnum.toNat * 3) bs
      let (fr, _) ← readMany readI4 (fnum.toNat * 3) bs
      pure ⟨group3 cr, group3 fr⟩
    else .error (.valueError "negative count")
  else .error (.valueError "does not appear to be a Freesurfer surface")

/-! ## BEM surface codec

The tagged-container primitives (`fiff_open`, `dir_tree_find`,
`find_tag`, the typed writers) live outside this repository's core and
are consumed as an opaque key/value tag I/O service.
Modelled from the spec: a block is a list of `(tag id, typed value)`
pairs, `find_tag` is the first association for an id, and the typed
writers append a tag of the matching kind.  The numeric values of the
external FIFF constants are opaque; only their distinctness matters. -/

/-- A typed tag value: scalar int, scalar float, float matrix (row
list), int matrix (row list). -/
inductive TagData where
  | i : ℤ → TagData
  | f : ℚ → TagData
  | mat : List (List ℚ) → TagData
  | imat : List (List ℤ) → TagData
  deriving DecidableEq, Repr

/-- One block of the tagged container: its own tags, in file order. -/
abbrev Block : Type := List (ℕ × TagData)

/-- `find_tag`: first tag with the given id, or `none`. -/
def find_tag (blk : Block) (id : ℕ) : Option TagData :=
  (blk.find? (fun t => t.1 = id)).map (fun t => t.2)

def FIFF_BEM_SURF_ID : ℕ := 3101
def FIFF_BEM_SURF_NNODE : ℕ := 3103
def FIFF_BEM_SURF_NTRI : ℕ := 3104
def FIFF_BEM_SURF_NODES : ℕ := 3105
def FIFF_BEM_SURF_TRIANGLES : ℕ := 3106
def FIFF_BEM_SURF_NORMALS : ℕ := 3107
def FIFF_BEM_COORD_FRAME : ℕ := 3112
def FIFF_BEM_SIGMA : ℕ := 3113

/-- Modelled from the spec: external FIFF constant (coordinate-frame
tag id used by MNE source spaces); distinct from the BEM-local ids. -/
def FIFF_MNE_COORD_FRAME : ℕ := 2002

/-- Modelled from the spec: external FIFF constant (vertex-normal tag
id); distinct from the BEM-local ids. -/
def FIFF_MNE_SOURCE_SPACE_NORMALS : ℕ := 2256

/-- Modelled from the spec: external FIFF constant, the "unknown
surface id" sentinel used when the id tag is absent. -/
def FIFFV_BEM_SURF_ID_UNKNOWN : ℤ := -1

/-- Modelled from the spec: external FIFF constant, the default MRI
coordinate frame. -/
def FIFFV_COORD_MRI : ℤ := 5

/-- The in-memory surface record produced by the BEM codec (the dict
keys `id`, `sigma`, `np`, `ntri`, `coord_frame`, `rr`, `nn`, `tris`). -/
structure BemSurf where
  id : ℤ
  sigma : ℚ
  np : ℕ
  ntri : ℕ
  coord_frame : ℤ
  rr : List (List ℚ)
  nn : List (List ℚ)
  tris : List (List ℤ)
  deriving DecidableEq, Repr

/-- `_read_bem_surface`, from the source.  Returns `ok none` when an id
filter is supplied and the decoded id does not match (the caller skips
the block).  The second component records whether the container handle
was closed during the call: every error path runs `fid.close()` before
raising, a successful return leaves the handle open. -/
def read_bem_surface (blk : Block) (defCoordFrame : ℤ) (sid : Option ℤ) :
    Except Err (Option BemSurf) × Bool :=
  let id : ℤ :=
    match find_tag blk FIFF_BEM_SURF_ID with
    | some (.i n) => n
    | _ => FIFFV_BEM_SURF_ID_UNKNOWN
  if sid.isSome ∧ sid ≠ some id then (.ok none, false)
  else
    let sigma : ℚ :=
      match find_tag blk FIFF_BEM_SIGMA with
      | some (.f q) => q
      | _ => 1
    match find_tag blk FIFF_BEM_SURF_NNODE with
    | some (.i nnode) =>
      match find_tag blk FIFF_BEM_SURF_NTRI with
      | some (.i ntri) =>
        let coordFrame : ℤ :=
          match find_tag blk FIFF_MNE_COORD_FRAME with
          | some (.i cf) => cf
          | _ =>
            match find_tag blk FIFF_BEM_COORD_FRAME with
            | some (.i cf) => cf
            | _ => defCoordFrame
        match find_tag blk FIFF_BEM_SURF_NODES with
        | some (.mat rr) =>
          if (rr.length : ℤ) ≠ nnode then
            (.error (.valueError "Vertex information is incorrect"), true)
          else
            let nnRes :=
              match find_tag blk FIFF_MNE_SOURCE_SPACE_NORMALS with
              | some (.mat nn) => some nn
              | _ => none
            match nnRes with
            | some nn =>
              if (nn.length : ℤ) ≠ nnode then
                (.error (.valueError "Vertex normal information is incorrect"),
                 true)
              else
                match find_tag blk FIFF_BEM_SURF_TRIANGLES with
                | some (.imat tris) =>
                  if (tris.length : ℤ) ≠ ntri then
                    (.error (.valueError "Triangulation information is incorrect"),
                     true)
                  else
                    (.ok (some ⟨id, sigma, rr.length, tris.length, coordFrame,
                                rr, nn, tris.map (fun row => row.map (· - 1))⟩),
                     false)
                | _ => (.error (.valueError "Triangulation not found"), true)
            | none =>
              match find_tag blk FIFF_BEM_SURF_TRIANGLES with
              | some (.imat tris) =>
                if (tris.length : ℤ) ≠ ntri then
                  (.error (.valueError "Triangulation information is incorrect"),
                   true)
                else
                  (.ok (some ⟨id, sigma, rr.length, tris.length, coordFrame,
                              rr, [], tris.map (fun row => row.map (· - 1))⟩),
                   false)
              | _ => (.error (.valueError "Triangulation not found"), true)
        | _ => (.error (.valueError "Vertex data not found"), true)
      | _ => (.error (.valueError "Number of triangles not found"), true)
    | _ => (.error (.valueError "Number of vertices not found"), true)

/-- The BEM block of a FIF file: an optional top-level coordinate-frame
tag and the surface sub-blocks (`none` models `dir_tree_find` finding
nothing). -/
structure BemBlock where
  coordFrameTag : Option ℤ
  surfBlocks : Option (List Block)

/-- A FIF file as seen by `read_bem_surfaces`: `none` models a file
with no BEM block. -/
structure BemFile where
  bem : Option BemBlock

/-- Result of `read_bem_surfaces`: a single surface when an id filter
was supplied, otherwise the list of all surfaces in file order. -/
inductive BemRead where
  | one : BemSurf → BemRead
  | many : List BemSurf → BemRead
  deriving DecidableEq, Repr

/-- Sequence the per-block reads of the `s_id` list comprehension: the
first read that raises propagates (its close flag with it). -/
def readAllSurfBlocks (cf : ℤ) (sid : Option ℤ) :
    List Block → Except Err (List (Option BemSurf)) × Bool
  | [] => (.ok [], false)
  | blk :: rest =>
    match read_bem_surface blk cf sid with
    | (.error e, closed) => (.error e, closed)
    | (.ok s, _) =>
      match readAllSurfBlocks cf sid rest with
      | (.error e, closed) => (.error e, closed)
      | (.ok l, _) => (.ok (s :: l), false)

/-- `read_bem_surfaces` (with `add_geom=False`), from the source.  The
second component again records whether the handle was closed: the
missing-block errors close first; with an id filter, the
"surface not found" `ValueError` is raised *before* `fid.close()`
(the close only happens on the success path just before `return`). -/
def read_bem_surfaces (f : BemFile) (sid : Option ℤ) :
    Except Err BemRead × Bool :=
  match f.bem with
  | none => (.error (.valueError "BEM data not found"), true)
  | some bem =>
    match bem.surfBlocks with
    | none => (.error (.valueError "BEM surface data not found"), true)
    | some bsurfs =>
      let coordFrame := bem.coordFrameTag.getD FIFFV_COORD_MRI
      match sid with
      | some id =>
        match readAllSurfBlocks coordFrame (some id) bsurfs with
        | (.error e, closed) => (.error e, closed)
        | (.ok opts, _) =>
          let surfs := opts.reduceOption
          if surfs.length = 1 then
            match surfs with
            | [s] => (.ok (.one s), true)
            | _ => (.error (.valueError "unreachable"), false)
          else
            -- raise ValueError('surface with id %d not found' % s_id)
            -- the fid.close() sits below this raise and is skipped
            (.error (.valueError "surface with id not found"), false)
      | none =>
        match readAllSurfBlocks coordFrame none bsurfs with
        | (.error e, closed) => (.error e, closed)
        | (.ok opts, _) => (.ok (.many opts.reduceOption), true)

/-- `write_bem_surface`, from the source: the surface block it writes,
as the ordered tag list — id, sigma, vertex count, triangle count,
coordinate frame, vertex matrix, the normal matrix only when non-empty,
and the triangle matrix converted to 1-based indices. -/
def write_bem_surface (s : BemSurf) : Block :=
  [(FIFF_BEM_SURF_ID, .i s.id),
   (FIFF_BEM_SIGMA, .f s.sigma),
   (FIFF_BEM_SURF_NNODE, .i s.np),
   (FIFF_BEM_SURF_NTRI, .i s.ntri),
   (FIFF_BEM_COORD_FRAME, .i s.coord_frame)] ++
  [(FIFF_BEM_SURF_NODES, .mat s.rr)] ++
  (if s.nn ≠ [] then [(FIFF_MNE_SOURCE_SPACE_NORMALS, .mat s.nn)] else []) ++
  [(FIFF_BEM_SURF_TRIANGLES, .imat (s.tris.map (fun row => row.map (· + 1))))]

/-- The file `write_bem_surface` produces: one BEM block holding one
surface block, no top-level coordinate-frame tag. -/
def write_bem_file (s : BemSurf) : BemFile :=
  ⟨some ⟨none, some [write_bem_surface s]⟩⟩

/-! ## Geometry completion: vertex-to-incident-triangle adjacency -/

/-- Append `p` to the entry of vertex `v` (list assignment
`neighbor[v].append(p)`). -/
def appendAt (l : List (List ℕ)) (v p : ℕ) : List (List ℕ) :=
  l.set v ((l.getD v []) ++ [p])

/-- `_triangle_neighbors`, embedded through the reference loop its own
comment documents (and which the vectorized bincount/argsort code is
written to replicate, including the final ascending per-vertex sort):
for each triangle `p` append `p` to the entries of its three vertices.
Triangles are visited in increasing `p`, so every entry is ascending,
matching the `np.sort` of the vectorized version. -/
def triangle_neighbors (tris : List (ℕ × ℕ × ℕ)) (npts : ℕ) :
    List (List ℕ) :=
  (tris.enum.foldl
    (fun acc pt =>
      appendAt (appendAt (appendAt acc pt.2.1 pt.1) pt.2.2.1 pt.1) pt.2.2.2 pt.1)
    (List.replicate npts []))

/-- The defect-clearing step of `_complete_surface_info`: after logging,
`for k in idx: this['neighbor_tri'] = np.array([], int)` — each
iteration rebinds the *whole* `neighbor_tri` field to a flat empty
array (there is no `[k]` subscript on the left-hand side), so one pass
of the loop destroys every vertex's entry.  The empty array, viewed as
a container of per-vertex entries, is the empty list. -/
def complete_neighbor_tri (tris : List (ℕ × ℕ × ℕ)) (npts : ℕ) :
    List (List ℕ) :=
  let nt := triangle_neighbors tris npts
  let idx := (List.range npts).filter (fun v => (nt.getD v []).length < 3)
  idx.foldl (fun _cur _k => ([] : List (List ℕ))) nt

/-! ## Source-space decimation (`_create_surf_spacing` inner loop) -/

/-- Insert into an ascending list, keeping duplicates out (used to model
`np.setdiff1d`, which returns sorted unique values). -/
def sortedInsert (a : ℕ) : List ℕ → List ℕ
  | [] => [a]
  | b :: l =>
    if a < b then a :: b :: l
    else if a = b then b :: l
    else b :: sortedInsert a l

/-- Sorted unique values of a list (`np.unique`). -/
def sortedUnique (l : List ℕ) : List ℕ :=
  l.foldr sortedInsert []

/-- `np.setdiff1d(verts, [k])`: sorted unique values of `verts` with
`k` removed. -/
def setdiff1d (verts : List ℕ) (k : ℕ) : List ℕ :=
  sortedUnique (verts.filter (fun v => v ≠ k))

/-- The subject surface data consumed by the decimation loop: vertex
count, triangles, and the completed vertex-to-incident-triangle
adjacency. -/
structure DecimSurf where
  np : ℕ
  tris : List (ℕ × ℕ × ℕ)
  neighbor_tri : List (List ℕ)

/-- `_get_surf_neighbors`, from the source: concatenate the vertex
triples of the incident triangles of `k`, remove `k`, keep sorted
unique values; raise if any neighbor index reaches `np`, and raise
`'Too many neighbors'` when there are more distinct neighbors than
incident triangles.  `np.concatenate` of an empty list raises
`ValueError`. -/
def surfNeighborVertLists (s : DecimSurf) (ntk : List ℕ) :
    Except Err (List (List ℕ)) :=
  ntk.mapM (fun t =>
    match s.tris.get? t with
    | none => .error Err.indexError
    | some tri => .ok [tri.1, tri.2.1, tri.2.2])

def get_surf_neighbors (s : DecimSurf) (k : ℕ) : Except Err (List ℕ) :=
  match s.neighbor_tri.get? k with
  | none => .error Err.indexError
  | some ntk =>
    match surfNeighborVertLists s ntk with
    | .error e => .error e
    | .ok vertLists =>
      if vertLists = [] then
        .error (.valueError "need at least one array to concatenate")
      else
        let verts := setdiff1d vertLists.flatten k
        if verts.any (fun v => s.np ≤ v) then .error (.runtimeError "")
        else if ntk.length < verts.length then
          .error (.runtimeError "Too many neighbors")
        else .ok verts

/-- The occupancy-conflict loop of `_create_surf_spacing` (`stype` in
`ico`/`oct`): walk the raw nearest-neighbor map in order with
`inuse = np.zeros(np)`.  Reading `inuse[mmap[k]]` out of bounds raises
`IndexError` (numpy rejects scalar indices `≥ len`).  If the candidate
is occupied, reassign to the *last* unused entry of its sorted neighbor
list, or raise; the explicit `mmap[k] < 0 or mmap[k] > np` range check
sits in the `elif`, after the occupancy lookup.  Each accepted vertex
is marked in use.  Returns the final (mutated) map and occupancy. -/
def decim_loop (s : DecimSurf) :
    List ℕ → List ℕ × List Bool → Except Err (List ℕ × List Bool)
  | [], st => .ok st
  | m :: rest, (acc, inuse) =>
    match inuse.get? m with
    | none => .error .indexError
    | some true =>
      match get_surf_neighbors s m with
      | .error e => .error e
      | .ok neigh =>
        let inds := (List.range neigh.length).filter
          (fun i => ¬ (inuse.getD (neigh.getD i 0) false))
        match inds.getLast? with
        | none =>
          .error (.runtimeError "Could not find neighbor for vertex")
        | some i =>
          let m' := neigh.getD i 0
          decim_loop s rest (acc ++ [m'], inuse.set m' true)
    | some false =>
      if (m : ℤ) < 0 ∨ (m : ℤ) > (s.np : ℤ) then
        .error (.runtimeError "Map number out of range")
      else
        decim_loop s rest (acc ++ [m], inuse.set m true)

/-! ## Nearest-neighbor search (`_get_nearest`) -/

/-- A 3D point over a scalar type. -/
structure V3 (K : Type) where
  x : K
  y : K
  z : K
  deriving DecidableEq, Repr

/-- Scan for the index of the minimum: `best` is the best
`(index, value)` so far, `i` the index of the head of the remaining
list; strict comparison keeps the earlier index on ties. -/
def argminAux (best : ℕ × ℚ) (i : ℕ) : List ℚ → ℕ
  | [] => best.1
  | v :: rest =>
    if v < best.2 then argminAux (i, v) (i + 1) rest
    else argminAux best (i + 1) rest

/-- `np.argmin` on a value list: index of the first occurrence of the
minimum.  numpy raises on an empty array; the call sites below never
reach that case and it is mapped to index 0. -/
def argminList : List ℚ → ℕ
  | [] => 0
  | v :: rest => argminAux (0, v) 1 rest

/-- `np.argmin` over a flattened matrix of values. -/
def argminFlat (rows : List (List ℚ)) : ℕ :=
  argminList rows.flatten

/-- Squared Euclidean distance between two coordinate rows of equal
length. -/
def rowDistSq (a b : List ℚ) : ℚ :=
  ((a.zip b).map (fun p => (p.1 - p.2) * (p.1 - p.2))).sum

/-- `scipy.spatial.distance.cdist` on row matrices, up to the monotone
square root: `cdist` returns Euclidean distances, this returns their
squares, which has the same `ValueError` behaviour ("XA and XB must
have the same number of columns") and — `sqrt` being strictly monotone
— the same argmin.  Both call sites only take argmins. -/
def cdistSq (xa xb : List (List ℚ)) : Except Err (List (List ℚ)) :=
  let nA := (xa.headD []).length
  let nB := (xb.headD []).length
  if xa.any (fun r => r.length ≠ nA) ∨ xb.any (fun r => r.length ≠ nB) then
    .error (.valueError "input matrix must be rectangular")
  else if nA ≠ nB then
    .error (.valueError "XA and XB must have the same number of columns")
  else
    .ok (xa.map (fun ra => xb.map (fun rb => rowDistSq ra rb)))

/-- The sequential brute-force fallback of `_get_nearest`:
`np.argmin(cdist(t[:, np.newaxis], fro))` for each query point `t`.
For a 1-D point `t` of shape `(3,)`, `t[:, np.newaxis]` has shape
`(3, 1)` — three one-dimensional points — which `cdist` receives
against the `(m, 3)` candidate matrix. -/
def get_nearest_fallback (toPts fro : List (V3 ℚ)) : Except Err (List ℕ) :=
  toPts.mapM (fun t =>
    (cdistSq [[t.x], [t.y], [t.z]]
      (fro.map (fun p => [p.x, p.y, p.z]))).map argminFlat)

/-- Modelled from the spec: the accelerated index path's contract —
for each query point the index of the nearest candidate in 3D
Euclidean distance, lowest index winning ties (argmin semantics).
Stated over squared distances; `sqrt` is strictly monotone so the
argmin is the same. -/
def nearest_map_spec (toPts fro : List (V3 ℚ)) : List ℕ :=
  toPts.map (fun t =>
    argminList (fro.map (fun p => rowDistSq [t.x, t.y, t.z] [p.x, p.y, p.z])))

/-! ## Icosphere tessellation (`_tessellate_sphere`)

The tessellation is embedded generically over a linearly ordered field
with the square root passed as a parameter, and instantiated at `ℝ`
with `Real.sqrt` in the theorems; all other operations are field
arithmetic and comparisons, exactly as in the float source. -/

variable {K : Type} [LinearOrderedField K]

/-- Componentwise midpoint `(a + b) / 2`. -/
def vmid (a b : V3 K) : V3 K :=
  ⟨(a.x + b.x) / 2, (a.y + b.y) / 2, (a.z + b.z) / 2⟩

/-- `np.sum(c ** 2)`: squared Euclidean norm. -/
def normSq (p : V3 K) : K := p.x ^ 2 + p.y ^ 2 + p.z ^ 2

/-- Componentwise division by a scalar. -/
def vdivs (p : V3 K) (s : K) : V3 K := ⟨p.x / s, p.y / s, p.z / s⟩

/-- Componentwise scaling. -/
def vscale (r : K) (p : V3 K) : V3 K := ⟨r * p.x, r * p.y, r * p.z⟩

/-- `_norm_midpt`: midpoint of two vertices, projected back onto the
unit sphere (`c / sqrt(sum(c**2))`). -/
def norm_midpt (sqrt : K → K) (a b : V3 K) : V3 K :=
  let c := vmid a b
  vdivs c (sqrt (normSq c))

/-- Squared distance between two points (`cdist` squared; the dedup
comparison `dist < 1e-4` is stated on squares against `(1e-4)^2`,
`sqrt` being strictly monotone). -/
def distSq (a b : V3 K) : K :=
  (a.x - b.x) ^ 2 + (a.y - b.y) ^ 2 + (a.z - b.z) ^ 2

/-- Vertices of the unit octahedron. -/
def octRR : List (V3 K) :=
  [⟨1, 0, 0⟩, ⟨-1, 0, 0⟩, ⟨0, 1, 0⟩, ⟨0, -1, 0⟩, ⟨0, 0, 1⟩, ⟨0, 0, -1⟩]

/-- Triangles of the unit octahedron after the `tris[:, [2, 1, 0]]`
column reversal for counter-clockwise winding. -/
def octTris : List (ℕ × ℕ × ℕ) :=
  [(2, 4, 0), (1, 4, 2), (3, 4, 1), (0, 4, 3),
   (5, 2, 0), (5, 1, 2), (5, 3, 1), (5, 0, 3)]

/-- The zero point, used as the `getD` junk default (indices are
always in bounds where it appears). -/
def v3zero : V3 K := ⟨0, 0, 0⟩

/-- One subdivision pass: per old triangle `k` with corners
`(t0, t1, t2)`, the normalized edge midpoints `a = mid(t0, t2)`,
`b = mid(t0, t1)`, `c = mid(t1, t2)` are appended blockwise
(`rr ++ A ++ B ++ C`, so `a_k` sits at `n + k`, `b_k` at `n + ntri + k`,
`c_k` at `n + 2*ntri + k`), and the triangle is replaced by its four
children `[t0, b, a], [b, t1, c], [a, b, c], [a, c, t2]`. -/
def subdivideStep (sqrt : K → K) (st : List (V3 K) × List (ℕ × ℕ × ℕ)) :
    List (V3 K) × List (ℕ × ℕ × ℕ) :=
  let rr := st.1
  let tris := st.2
  let n := rr.length
  let ntri := tris.length
  let A := tris.map (fun t =>
    norm_midpt sqrt (rr.getD t.1 v3zero) (rr.getD t.2.2 v3zero))
  let B := tris.map (fun t =>
    norm_midpt sqrt (rr.getD t.1 v3zero) (rr.getD t.2.1 v3zero))
  let C := tris.map (fun t =>
    norm_midpt sqrt (rr.getD t.2.1 v3zero) (rr.getD t.2.2 v3zero))
  let newTris := ((List.range ntri).map (fun k =>
    let t := tris.getD k (0, 0, 0)
    [(t.1, n + ntri + k, n + k),
     (n + ntri + k, t.2.1, n + 2 * ntri + k),
     (n + k, n + ntri + k, n + 2 * ntri + k),
     (n + k, n + 2 * ntri + k, t.2.2)])).flatten
  (rr ++ A ++ B ++ C, newTris)

/-- `n`-fold iteration (the `for level in range(1, mylevel)` loop). -/
def iterN {α : Type} (f : α → α) : ℕ → α → α
  | 0, a => a
  | n + 1, a => iterN f n (f a)

/-- The state after all subdivision passes: the octahedron subdivided
`mylevel - 1` times (triangle list not yet deduplicated). -/
def tessLoop (sqrt : K → K) (mylevel : ℤ) :
    List (V3 K) × List (ℕ × ℕ × ℕ) :=
  iterN (subdivideStep sqrt) (mylevel - 1).toNat (octRR, octTris)

/-- `np.where(dists < 1e-4)[0]` followed by `idx[0]`: index of the
first already-accepted node within tolerance of `c` (squared form). -/
def whereFirst (c : V3 K) : List (V3 K) → Option ℕ
  | [] => none
  | nd :: rest =>
    if distSq nd c < (1 / 10000 : K) ^ 2 then some 0
    else (whereFirst c rest).map (· + 1)

/-- Process one corner coordinate against the accepted nodes: reuse the
first node within tolerance, else append a new node. -/
def dedupCorner (nodes : List (V3 K)) (c : V3 K) : List (V3 K) × ℕ :=
  match whereFirst c nodes with
  | some i => (nodes, i)
  | none => (nodes ++ [c], nodes.length)

/-- The final vertex-deduplication loop of `_tessellate_sphere`: walk
the triangles, replacing each corner index by the index of its
(possibly shared) node in the accepted-node table. -/
def dedupTris (rr : List (V3 K)) :
    List (ℕ × ℕ × ℕ) → List (V3 K) → List (V3 K) × List (ℕ × ℕ × ℕ)
  | [], nodes => (nodes, [])
  | t :: rest, nodes =>
    let p1 := dedupCorner nodes (rr.getD t.1 v3zero)
    let p2 := dedupCorner p1.1 (rr.getD t.2.1 v3zero)
    let p3 := dedupCorner p2.1 (rr.getD t.2.2 v3zero)
    let rec' := dedupTris rr rest p3.1
    (rec'.1, (p1.2, p2.2, p3.2) :: rec'.2)

/-- `_tessellate_sphere`: reject levels `< 1`, run the subdivision
loop, deduplicate vertices. -/
def tessellate_sphere (sqrt : K → K) (mylevel : ℤ) :
    Except Err (List (V3 K) × List (ℕ × ℕ × ℕ)) :=
  if mylevel < 1 then .error (.valueError "# of levels must be >= 1")
  else
    let st := tessLoop sqrt mylevel
    .ok (dedupTris st.1 st.2 [])

/-- The value stored in the `nuse` slot of the surface dict built by
`_tessellate_sphere_surf`.  The source writes `nuse=np` — and `np` is
the *numpy module* (the point count is held by the local `npt`, named
that way precisely to dodge the module name), so the slot holds the
module object, not a count. -/
inductive PyVal where
  | int : ℤ → PyVal
  | numpyModule : PyVal
  deriving DecidableEq, Repr

/-- The surface dict built by `_tessellate_sphere_surf`. -/
structure TessSurf (K : Type) where
  rr : List (V3 K)
  np : ℕ
  tris : List (ℕ × ℕ × ℕ)
  use_tris : List (ℕ × ℕ × ℕ)
  ntri : ℕ
  nuse : PyVal
  nn : List (V3 K)
  inuse : List ℤ

/-- `_tessellate_sphere_surf`: tessellate, copy the unit positions as
normals, scale the positions by `rad`, mark every vertex in use
(`inuse = np.ones(npt)`), and store `nuse=np` — the numpy module. -/
def tessellate_sphere_surf (sqrt : K → K) (level : ℤ) (rad : K) :
    Except Err (TessSurf K) :=
  match tessellate_sphere sqrt level with
  | .error e => .error e
  | .ok (nodes, corners) =>
    .ok ⟨nodes.map (vscale rad), nodes.length, corners, corners,
         corners.length, PyVal.numpyModule, nodes,
         List.replicate nodes.length 1⟩

/-! # Theorems -/

deriving instance DecidableEq for Except

/-! ## C1 — defect clearing in `_complete_surface_info` -/

/-- A triangle fan around vertex 0 on 4 vertices: vertex 0 has 3
incident triangles (not defective), vertices 1, 2, 3 have 2 each
(defective). -/
def fanTris : List (ℕ × ℕ × ℕ) := [(0, 1, 2), (0, 2, 3), (0, 3, 1)]

/-- C1: falsified.  The claim says only defective vertices (fewer than
3 incident triangles) have their adjacency entry cleared, with every
other vertex's sorted entry left unchanged.  On `fanTris`, vertex 0 has
the 3-triangle entry `[0, 1, 2]` and vertices 1–3 are defective, so the
claimed result is `[[0,1,2], [], [], []]`; but the defect loop rebinds
the whole `neighbor_tri` field to one flat empty array
(`this['neighbor_tri'] = np.array([], int)`, no `[k]` subscript), so
vertex 0's entry is destroyed along with everything else. -/
theorem c1_defect_clearing_clobbers_adjacency :
    triangle_neighbors fanTris 4 = [[0, 1, 2], [0, 2], [0, 1], [1, 2]] ∧
    3 ≤ ((triangle_neighbors fanTris 4).getD 0 []).length ∧
    complete_neighbor_tri fanTris 4 = [] ∧
    complete_neighbor_tri fanTris 4 ≠ [[0, 1, 2], [], [], []] := by
  decide

/-! ## C2 — quad-format `read_surface` -/

/-- A well-formed legacy quad file: magic `16777215`, 4 vertices, 1
quad `(0, 1, 2, 3)`, all coordinates zero. -/
def quadFileBytes : List ℕ :=
  enc3 16777215 ++ enc3 4 ++ enc3 1 ++ List.replicate 24 0 ++
  (enc3 0 ++ enc3 1 ++ enc3 2 ++ enc3 3)

/-- C2: falsified on the "read succeeds" part.  The face-splitting
parity rule itself matches the claim (first two conjuncts: an
even-leading quad yields `(v0,v1,v3), (v2,v3,v1)` and an odd-leading
quad yields `(v0,v1,v2), (v0,v2,v3)`), but reading any well-formed quad
file raises `UnboundLocalError`: after the branch, the log line
evaluates `create_stamp.strip()` and `create_stamp` is only assigned in
the triangle branch. -/
theorem c2_quad_read_crashes :
    splitQuads [(0, 1, 2, 3)] = [(0, 1, 3), (2, 3, 1)] ∧
    splitQuads [(1, 2, 3, 4)] = [(1, 2, 3), (1, 3, 4)] ∧
    read_surface quadFileBytes = .error .unboundLocalError := by
  decide

/-! ## C4 — `_get_nearest` brute-force fallback -/

/-- C4: falsified.  The fallback passes `t[:, np.newaxis]` — the query
point as a `(3, 1)` column, i.e. three 1-D points — to `cdist` against
the `(m, 3)` candidate matrix, which raises `ValueError` (column-count
mismatch) instead of computing anything; the accelerated path's argmin
contract (`nearest_map_spec`) returns `[1]` on the same input (the
query coincides with candidate 1). -/
theorem c4_fallback_crashes :
    get_nearest_fallback [⟨0, 0, 0⟩] [⟨1, 0, 0⟩, ⟨0, 0, 0⟩] =
      .error (.valueError "XA and XB must have the same number of columns") ∧
    nearest_map_spec [⟨0, 0, 0⟩] [⟨1, 0, 0⟩, ⟨0, 0, 0⟩] = [1] := by
  exact ⟨by decide, by norm_num [nearest_map_spec, argminList, argminAux,
    rowDistSq]⟩

/-! ## C6 — handle closing in `read_bem_surfaces` -/

/-- A BEM file holding two surface blocks with ids 1 and 3. -/
def twoSurfFile : BemFile :=
  ⟨some ⟨none, some [[(FIFF_BEM_SURF_ID, .i 1)], [(FIFF_BEM_SURF_ID, .i 3)]]⟩⟩

/-- C6: falsified on the id-filter path.  Requesting `s_id = 99` from a
file with surfaces 1 and 3 matches no surface, so the function raises
`ValueError` — but that `raise` sits *above* the `fid.close()` of the
`s_id` branch, so the handle is left open (`false` flag).  The other
file-scoped error paths (second conjunct: missing BEM block) do close
the handle first. -/
theorem c6_sid_error_leaves_handle_open :
    read_bem_surfaces twoSurfFile (some 99) =
      (.error (.valueError "surface with id not found"), false) ∧
    read_bem_surfaces ⟨none⟩ (some 99) =
      (.error (.valueError "BEM data not found"), true) := by
  decide

/-! ## C9 — `read_curvature` -/

theorem readBytes_append (l r : List ℕ) :
    readBytes l.length (l ++ r) = .ok (l, r) := by
  simp [readBytes, List.take_left, List.drop_left]

theorem readBytes_eq (k : ℕ) (l r : List ℕ) (h : l.length = k) :
    readBytes k (l ++ r) = .ok (l, r) := by
  subst h
  exact readBytes_append l r

theorem fread3_enc3 (v : ℕ) (r : List ℕ) (h : v < 2 ^ 24) :
    fread3 (enc3 v ++ r) = .ok (v, r) := by
  have h3 : enc3 v = [v / 65536 % 256, v / 256 % 256, v % 256] := by
    simp [enc3, encBE]
  have hb : beVal [v / 65536 % 256, v / 256 % 256, v % 256] = v := by
    simp only [beVal, List.foldl]
    omega
  rw [fread3, h3, readBytes_eq 3 _ _ (by simp)]
  simp only [Except.map, Except.ok.injEq, Prod.mk.injEq]
  exact ⟨hb, trivial⟩

theorem readI4_encI4 (v : ℤ) (r : List ℕ) (h1 : -(2 ^ 31) ≤ v)
    (h2 : v < 2 ^ 31) : readI4 (encI4 v ++ r) = .ok (v, r) := by
  have h4 : encI4 v = [(v % 2 ^ 32).toNat / 16777216 % 256,
      (v % 2 ^ 32).toNat / 65536 % 256, (v % 2 ^ 32).toNat / 256 % 256,
      (v % 2 ^ 32).toNat % 256] := by
    simp [encI4, encBE]
  rw [readI4, h4, readBytes_eq 4 _ _ (by simp)]
  simp only [Except.map, Except.ok.injEq, Prod.mk.injEq]
  refine ⟨?_, trivial⟩
  simp only [beVal, List.foldl, toSigned]
  split <;> omega

theorem readI2_enc (g : List ℕ) (r : List ℕ) (h : g.length = 2) :
    readI2 (g ++ r) = .ok (toSigned 2 (beVal g), r) := by
  rw [readI2, readBytes_eq 2 _ _ h]
  rfl

theorem readF32_enc (g : List ℕ) (r : List ℕ) (h : g.length = 4) :
    readF32 (g ++ r) = .ok (decodeF32 (beVal g), r) := by
  rw [readF32, readBytes_eq 4 _ _ h]
  rfl

theorem readMany_readF32 (gs : List (List ℕ)) (r : List ℕ)
    (h : ∀ g ∈ gs, g.length = 4) :
    readMany readF32 gs.length (gs.flatten ++ r) =
      .ok (gs.map (fun g => decodeF32 (beVal g)), r) := by
  induction gs with
  | nil => simp [readMany]
  | cons g gs ih =>
    have hg : g.length = 4 := h g (by simp)
    have hrest := ih (fun g' hg' => h g' (by simp [hg']))
    simp only [List.flatten_cons, List.append_assoc, List.length_cons,
      readMany, List.map_cons]
    rw [readF32_enc g _ hg]
    simp only [Bind.bind, Except.bind, hrest]
    rfl

theorem readMany_readI2 (gs : List (List ℕ)) (r : List ℕ)
    (h : ∀ g ∈ gs, g.length = 2) :
    readMany readI2 gs.length (gs.flatten ++ r) =
      .ok (gs.map (fun g => toSigned 2 (beVal g)), r) := by
  induction gs with
  | nil => simp [readMany]
  | cons g gs ih =>
    have hg : g.length = 2 := h g (by simp)
    have hrest := ih (fun g' hg' => h g' (by simp [hg']))
    simp only [List.flatten_cons, List.append_assoc, List.length_cons,
      readMany, List.map_cons]
    rw [readI2_enc g _ hg]
    simp only [Bind.bind, Except.bind, hrest]
    rfl

/-- Evaluation of `read_curvature` on well-formed files of either
variant: a full-size file (magic 16777215, float32 values given as
4-byte groups) decodes each group and emits 1 iff the decoded float
compares equal to zero, while a packed file (2-byte signed integers)
emits 1 iff the raw integer *floor-divided by 100* is zero — i.e. for
every raw value in `0 ≤ i ≤ 99`, not only for zero. -/
theorem read_curvature_encode_eval (a b : ℤ) (fg pg : List (List ℕ))
    (ha1 : -(2 ^ 31) ≤ a) (ha2 : a < 2 ^ 31)
    (hb1 : -(2 ^ 31) ≤ b) (hb2 : b < 2 ^ 31)
    (hfg : ∀ g ∈ fg, g.length = 4) (hfgn : fg.length < 2 ^ 31)
    (hpg : ∀ g ∈ pg, g.length = 2) (hpgn : pg.length < 2 ^ 24)
    (hpgm : pg.length ≠ 16777215) :
    read_curvature (encodeFullCurv a b fg) =
      .ok (fg.map (fun g => if f32Ne0 (decodeF32 (beVal g)) then 0 else 1)) ∧
    read_curvature (encodePackedCurv 0 pg) =
      .ok (pg.map (fun g =>
        if Int.fdiv (toSigned 2 (beVal g)) 100 = 0 then 1 else 0)) := by
  constructor
  · have e5 := readMany_readF32 fg [] hfg
    rw [List.append_nil] at e5
    have hlen1 : -(2 ^ 31 : ℤ) ≤ (fg.length : ℤ) := by omega
    have hlen2 : (fg.length : ℤ) < 2 ^ 31 := by omega
    rw [encodeFullCurv, read_curvature]
    simp only [List.append_assoc]
    rw [fread3_enc3 16777215 _ (by norm_num)]
    dsimp only
    rw [if_pos (rfl : (16777215 : ℕ) = 16777215)]
    rw [readI4_encI4 _ _ hlen1 hlen2]
    dsimp only
    rw [readI4_encI4 a _ ha1 ha2]
    dsimp only
    rw [readI4_encI4 b _ hb1 hb2]
    dsimp only
    rw [if_pos (Int.ofNat_nonneg fg.length), Int.toNat_natCast, e5]
    dsimp only
    rw [List.map_map]
    congr 1
    apply List.map_congr_left
    intro g _
    by_cases hz : f32Ne0 (decodeF32 (beVal g)) <;> simp [hz, Function.comp]
  · have e5 := readMany_readI2 pg [] hpg
    rw [List.append_nil] at e5
    rw [encodePackedCurv, read_curvature]
    simp only [List.append_assoc]
    rw [fread3_enc3 pg.length _ hpgn]
    dsimp only
    rw [if_neg hpgm]
    rw [fread3_enc3 0 _ (by norm_num)]
    dsimp only
    rw [e5]
    dsimp only
    rw [List.map_map, List.map_map]
    congr 1
    apply List.map_congr_left
    intro g _
    by_cases hz : Int.fdiv (toSigned 2 (beVal g)) 100 = 0 <;>
      simp [hz, Function.comp]

/-- C9: falsified in the packed variant.  The full-size float32 variant
behaves as claimed — the spec's scenario, vnum = 3 with values
`[0.0, -1.5, 2.0]` (bits `0x00000000`, `0xBFC00000`, `0x40000000`),
binarizes to `[1, 0, 0]` — but in the packed variant the Python 2
integer division makes the nonzero raw int16 value 50 divide to 0 and
binarize to 1, where the claim ("0 otherwise") demands 0; the raw
value -50 floor-divides to -1 and binarizes to 0. -/
theorem c9_packed_floor_division :
    read_curvature
      (encodeFullCurv 0 0 [[0, 0, 0, 0], [191, 192, 0, 0], [64, 0, 0, 0]]) =
      .ok [1, 0, 0] ∧
    read_curvature (encodePackedCurv 0 [[0, 50], [0, 0], [255, 206]]) =
      .ok [1, 1, 0] ∧
    toSigned 2 (beVal [0, 50]) = 50 ∧
    toSigned 2 (beVal [255, 206]) = -50 := by
  have h := read_curvature_encode_eval 0 0
    [[0, 0, 0, 0], [191, 192, 0, 0], [64, 0, 0, 0]]
    [[0, 50], [0, 0], [255, 206]]
    (by norm_num) (by norm_num) (by norm_num) (by norm_num)
    (by decide) (by norm_num) (by decide) (by norm_num) (by norm_num)
  refine ⟨h.1.trans ?_, h.2.trans ?_, by decide, by decide⟩
  · norm_num [decodeF32, f32Ne0, beVal, List.foldl]
  · decide

/-! ## C5 — BEM codec round-trip -/

/-- C5: as claimed.  Writing a populated surface with the BEM codec and
re-reading the file yields a record with identical `id`, identical
`sigma` (conductivity), the same vertex and triangle counts, identical
vertex positions, identical normals, and bit-identical 0-based
triangles (the `+1` on write is exactly inverted by the `-1` on
read). -/
theorem c5_bem_roundtrip (s : BemSurf)
    (hrr : s.rr.length = s.np) (htris : s.tris.length = s.ntri)
    (hnn : s.nn = [] ∨ s.nn.length = s.np) :
    ∃ s' : BemSurf,
      read_bem_surfaces (write_bem_file s) none = (.ok (.many [s']), true) ∧
      s'.id = s.id ∧ s'.sigma = s.sigma ∧ s'.np = s.np ∧ s'.ntri = s.ntri ∧
      s'.rr = s.rr ∧ s'.nn = s.nn ∧ s'.tris = s.tris := by
  have htr : (s.tris.map (fun row => row.map (· + 1))).map
      (fun row => row.map (· - 1)) = s.tris := by
    rw [List.map_map]
    have : ((fun row : List ℤ => row.map (· - 1)) ∘
        fun row : List ℤ => row.map (· + 1)) = id := by
      funext row
      simp only [List.map_map, Function.comp_def, add_sub_cancel_right,
        List.map_id', id_eq]
    rw [this, List.map_id]
  refine ⟨⟨s.id, s.sigma, s.np, s.ntri, s.coord_frame, s.rr, s.nn, s.tris⟩,
    ?_, rfl, rfl, rfl, rfl, rfl, rfl, rfl⟩
  by_cases hne : s.nn = []
  · simp [write_bem_file, read_bem_surfaces, readAllSurfBlocks,
      read_bem_surface, write_bem_surface, find_tag, List.find?, hne,
      htr, FIFF_BEM_SURF_ID, FIFF_BEM_SURF_NNODE, FIFF_BEM_SURF_NTRI,
      FIFF_BEM_SURF_NODES, FIFF_BEM_SURF_TRIANGLES, FIFF_BEM_COORD_FRAME,
      FIFF_BEM_SIGMA, FIFF_MNE_COORD_FRAME, FIFF_MNE_SOURCE_SPACE_NORMALS,
      ← hrr, ← htris]
  · have h : s.nn.length = s.np := hnn.resolve_left hne
    simp [write_bem_file, read_bem_surfaces, readAllSurfBlocks,
      read_bem_surface, write_bem_surface, find_tag, List.find?, hne, h,
      htr, FIFF_BEM_SURF_ID, FIFF_BEM_SURF_NNODE, FIFF_BEM_SURF_NTRI,
      FIFF_BEM_SURF_NODES, FIFF_BEM_SURF_TRIANGLES, FIFF_BEM_COORD_FRAME,
      FIFF_BEM_SIGMA, FIFF_MNE_COORD_FRAME, FIFF_MNE_SOURCE_SPACE_NORMALS,
      ← hrr, ← htris]

/-- C5 witness: a concrete surface (id 4, conductivity 33/100, 3
vertices, 1 triangle, no normals) round-trips. -/
theorem c5_witness :
    ∃ s' : BemSurf,
      read_bem_surfaces (write_bem_file ⟨4, 33 / 100, 3, 1, 5,
        [[0, 0, 0], [1, 0, 0], [0, 1, 0]], [], [[0, 1, 2]]⟩) none =
        (.ok (.many [s']), true) ∧
      s'.id = 4 ∧ s'.sigma = 33 / 100 ∧ s'.np = 3 ∧ s'.ntri = 1 ∧
      s'.rr = [[0, 0, 0], [1, 0, 0], [0, 1, 0]] ∧ s'.nn = [] ∧
      s'.tris = [[0, 1, 2]] := by
  exact c5_bem_roundtrip ⟨4, 33 / 100, 3, 1, 5,
    [[0, 0, 0], [1, 0, 0], [0, 1, 0]], [], [[0, 1, 2]]⟩ rfl rfl (Or.inl rfl)

/-! ## C3 / C8 — the decimation conflict loop -/

theorem get_surf_neighbors_lt (s : DecimSurf) (k : ℕ) (l : List ℕ)
    (h : get_surf_neighbors s k = .ok l) : ∀ v ∈ l, v < s.np := by
  intro v hv
  rw [get_surf_neighbors] at h
  rcases hk : s.neighbor_tri.get? k with _ | ntk <;> rw [hk] at h
  · cases h
  dsimp only at h
  rcases hm : surfNeighborVertLists s ntk with e | vertLists <;> rw [hm] at h
  · cases h
  dsimp only at h
  by_cases he : vertLists = []
  · rw [if_pos he] at h
    cases h
  rw [if_neg he] at h
  by_cases ha : (setdiff1d vertLists.flatten k).any (fun v => s.np ≤ v)
  · rw [if_pos ha] at h
    cases h
  rw [if_neg ha] at h
  by_cases hb : ntk.length < (setdiff1d vertLists.flatten k).length
  · rw [if_pos hb] at h
    cases h
  rw [if_neg hb] at h
  cases h
  simp only [List.any_eq_true, decide_eq_true_eq, not_exists, not_and] at ha
  by_contra hge
  push_neg at hge
  exact ha v hv hge

/-- The loop invariant: the accepted prefix is duplicate-free and the
occupancy array marks exactly the accepted vertices. -/
def decimInv (acc : List ℕ) (inuse : List Bool) : Prop :=
  acc.Pairwise (· ≠ ·) ∧ ∀ v, (inuse.getD v false = true ↔ v ∈ acc)

theorem getD_set_self (l : List Bool) (m : ℕ) (hm : m < l.length) :
    (l.set m true).getD m false = true := by
  rw [List.getD_eq_getElem?_getD, List.getElem?_set_self', List.getElem?_eq_getElem hm]
  simp

theorem getD_set_other (l : List Bool) (m v : ℕ) (hv : v ≠ m) :
    (l.set m true).getD v false = l.getD v false := by
  rw [List.getD_eq_getElem?_getD, List.getElem?_set_ne (fun he => hv he.symm),
    ← List.getD_eq_getElem?_getD]

theorem decimInv_extend (acc : List ℕ) (inuse : List Bool) (m : ℕ)
    (hm : m < inuse.length) (hnew : inuse.getD m false = false)
    (hinv : decimInv acc inuse) :
    decimInv (acc ++ [m]) (inuse.set m true) := by
  obtain ⟨hpw, hiff⟩ := hinv
  have hnot : m ∉ acc := fun hc => by
    rw [← hiff m] at hc
    rw [hnew] at hc
    cases hc
  constructor
  · rw [List.pairwise_append]
    refine ⟨hpw, List.pairwise_singleton _ _, ?_⟩
    intro a ha b hb
    rw [List.mem_singleton] at hb
    subst hb
    exact fun he => hnot (he ▸ ha)
  · intro v
    by_cases hv : v = m
    · subst hv
      rw [getD_set_self inuse _ hm]
      simp
    · rw [getD_set_other inuse m v hv, hiff v]
      simp [hv]

theorem decim_loop_inv (s : DecimSurf) (mmap : List ℕ) (acc : List ℕ)
    (inuse : List Bool) (hlen : inuse.length = s.np)
    (hinv : decimInv acc inuse) (res : List ℕ × List Bool)
    (h : decim_loop s mmap (acc, inuse) = .ok res) : decimInv res.1 res.2 := by
  induction mmap generalizing acc inuse with
  | nil =>
    rw [decim_loop] at h
    cases h
    exact hinv
  | cons m rest ih =>
    rw [decim_loop] at h
    rcases hg : inuse.get? m with _ | b <;> rw [hg] at h
    · cases h
    have hmlt : m < inuse.length := by
      by_contra hnot
      push_neg at hnot
      rw [List.get?_eq_none.mpr hnot] at hg
      cases hg
    cases b with
    | true =>
      dsimp only at h
      rcases hn : get_surf_neighbors s m with e | neigh <;> rw [hn] at h
      · cases h
      dsimp only at h
      rcases hl : ((List.range neigh.length).filter
          (fun i => ¬ (inuse.getD (neigh.getD i 0) false))).getLast?
        with _ | i <;> rw [hl] at h
      · cases h
      have hi : i ∈ (List.range neigh.length).filter
          (fun i => ¬ (inuse.getD (neigh.getD i 0) false)) := by
        obtain ⟨hne, heq⟩ :=
          List.mem_getLast?_eq_getLast (show i ∈ _ from hl)
        rw [heq]
        exact List.getLast_mem hne
      rw [List.mem_filter] at hi
      have hilt : i < neigh.length := List.mem_range.mp hi.1
      have hmem : neigh.getD i 0 ∈ neigh := by
        rw [List.getD_eq_getElem _ _ hilt]
        exact List.getElem_mem _
      have hlt : neigh.getD i 0 < s.np :=
        get_surf_neighbors_lt s m neigh hn _ hmem
      have hfalse : inuse.getD (neigh.getD i 0) false = false := by
        have h2 := hi.2
        simp only [decide_eq_true_eq, Bool.not_eq_true] at h2
        exact h2
      exact ih _ _ (by rw [List.length_set, hlen])
        (decimInv_extend acc inuse _ (hlen ▸ hlt) hfalse hinv) h
    | false =>
      dsimp only at h
      have hcond : ¬ ((m : ℤ) < 0 ∨ (m : ℤ) > (s.np : ℤ)) := by
        push_neg
        constructor
        · exact_mod_cast Nat.zero_le m
        · have hms : m < s.np := hlen ▸ hmlt
          exact_mod_cast Nat.le_of_lt hms
      rw [if_neg hcond] at h
      have hfalse : inuse.getD m false = false := by
        rw [List.getD_eq_getElem?_getD, ← List.get?_eq_getElem?, hg]
        rfl
      exact ih _ _ (by rw [List.length_set, hlen])
        (decimInv_extend acc inuse m hmlt hfalse hinv) h

/-- C3: as claimed.  Whenever the occupancy-conflict loop of
`_create_surf_spacing` completes without error (starting from an
all-zeros occupancy array), the final map is injective — no two
positions hold the same subject vertex index — and a vertex is marked
in use exactly when it is the accepted image of exactly one map
position. -/
theorem c3_decimation_injective (s : DecimSurf) (mmap fmap : List ℕ)
    (inuse : List Bool)
    (h : decim_loop s mmap ([], List.replicate s.np false) =
      .ok (fmap, inuse)) :
    fmap.Pairwise (· ≠ ·) ∧
    ∀ v, (inuse.getD v false = true ↔ v ∈ fmap) := by
  have hinit : decimInv [] (List.replicate s.np false) := by
    constructor
    · exact List.Pairwise.nil
    · intro v
      simp [List.getD_eq_getElem?_getD, List.getElem?_replicate]
      by_cases hv : v < s.np <;> simp [hv]
  exact decim_loop_inv s mmap [] _ (by simp) hinit (fmap, inuse) h

/-- A tetrahedron as subject surface: 4 vertices, 4 triangles, each
vertex with 3 incident triangles and 3 mesh neighbors. -/
def tetraSurf : DecimSurf :=
  ⟨4, [(0, 1, 2), (0, 3, 1), (0, 2, 3), (1, 3, 2)],
   [[0, 1, 2], [0, 1, 3], [0, 2, 3], [1, 2, 3]]⟩

/-- C3 witness: the raw map `[1, 1]` creates a conflict; the second
occurrence is rerouted to the last unused neighbor (vertex 3) and the
loop succeeds with the injective map `[1, 3]`, occupancy marking
exactly those two vertices. -/
theorem c3_witness :
    List.Pairwise (· ≠ ·) [1, 3] ∧
    ∀ v, (([false, true, false, true] : List Bool).getD v false = true ↔
      v ∈ [1, 3]) :=
  c3_decimation_injective tetraSurf [1, 1] [1, 3]
    [false, true, false, true] (by decide)

theorem decim_loop_oob (s : DecimSurf) (mmap : List ℕ) (acc : List ℕ)
    (inuse : List Bool) (hlen : inuse.length = s.np)
    (hm : ∃ m ∈ mmap, s.np ≤ m) :
    ∀ res, decim_loop s mmap (acc, inuse) ≠ .ok res := by
  induction mmap generalizing acc inuse with
  | nil => simp at hm
  | cons m rest ih =>
    intro res h
    rw [decim_loop] at h
    rcases hg : inuse.get? m with _ | b <;> rw [hg] at h
    · cases h
    have hmlt : m < inuse.length := by
      by_contra hnot
      push_neg at hnot
      rw [List.get?_eq_none.mpr hnot] at hg
      cases hg
    have hrest : ∃ m' ∈ rest, s.np ≤ m' := by
      rcases hm with ⟨m0, hmem, hge⟩
      rcases List.mem_cons.mp hmem with rfl | hr
      · exact absurd (hlen ▸ hmlt) (by omega)
      · exact ⟨m0, hr, hge⟩
    cases b with
    | true =>
      dsimp only at h
      rcases hn : get_surf_neighbors s m with e | neigh <;> rw [hn] at h
      · cases h
      dsimp only at h
      rcases hl : ((List.range neigh.length).filter
          (fun i => ¬ (inuse.getD (neigh.getD i 0) false))).getLast?
        with _ | i <;> rw [hl] at h
      · cases h
      exact ih _ _ (by rw [List.length_set, hlen]) hrest res h
    | false =>
      dsimp only at h
      by_cases hcond : ((m : ℤ) < 0 ∨ (m : ℤ) > (s.np : ℤ))
      · rw [if_pos hcond] at h
        cases h
      · rw [if_neg hcond] at h
        exact ih _ _ (by rw [List.length_set, hlen]) hrest res h

/-- C8 (amended): a raw nearest-neighbor map holding any index outside
`0 ≤ index < n_vertices` is never silently accepted — the loop cannot
complete successfully — but the failure for an index `≥ n_vertices` is
the `IndexError` of the occupancy lookup `inuse[mmap[k]]`, reached
before the explicit `mmap[k] < 0 or mmap[k] > np` range check (which
is unreachable for such indices), not the range-check
`RuntimeError` the claim (InvariantViolation) names. -/
theorem c8_oob_never_accepted (s : DecimSurf) (mmap : List ℕ)
    (hm : ∃ m ∈ mmap, s.np ≤ m) :
    ∀ res, decim_loop s mmap ([], List.replicate s.np false) ≠ .ok res :=
  decim_loop_oob s mmap [] _ (by simp) hm

/-- A 2-vertex subject surface used to exercise the out-of-range
path. -/
def oobSurf : DecimSurf := ⟨2, [(0, 1, 0)], [[0], [0]]⟩

/-- C8 counterexample: on a 2-vertex surface the out-of-range raw index
2 makes the loop fail with `IndexError` (the occupancy lookup), not
with the "Map number out of range" `RuntimeError` that the claim's
`InvariantViolation` denotes. -/
theorem c8_counterexample :
    decim_loop oobSurf [2] ([], List.replicate 2 false) =
      .error Err.indexError ∧
    Err.indexError ≠ Err.runtimeError "Map number out of range" := by
  decide

/-- C8 witness: the amended theorem at the concrete out-of-range
input. -/
theorem c8_witness :
    decim_loop oobSurf [2] ([], List.replicate oobSurf.np false) ≠
      .ok ([2], [false, false, true]) :=
  c8_oob_never_accepted oobSurf [2] ⟨2, by decide, by decide⟩
    ([2], [false, false, true])

/-! ## C7 — icosphere tessellation

The unit-norm invariant: every point ever stored by the subdivision is
a unit vector, because every triangle's three corners always lie in a
common closed octant, so no edge midpoint can vanish and the explicit
renormalisation in `_norm_midpt` lands back on the unit sphere. -/

theorem getD_append_lt {α : Type} (l r : List α) (i : ℕ) (d : α)
    (h : i < l.length) : (l ++ r).getD i d = l.getD i d := by
  rw [List.getD_eq_getElem?_getD, List.getElem?_append, if_pos h,
    ← List.getD_eq_getElem?_getD]

theorem getD_append_ge {α : Type} (l r : List α) (i : ℕ) (d : α)
    (h : l.length ≤ i) : (l ++ r).getD i d = r.getD (i - l.length) d := by
  rw [List.getD_eq_getElem?_getD, List.getElem?_append, if_neg (by omega),
    ← List.getD_eq_getElem?_getD]

theorem getD_map_lt {α β : Type} (l : List α) (f : α → β) (k : ℕ) (d : β)
    (d' : α) (h : k < l.length) : (l.map f).getD k d = f (l.getD k d') := by
  rw [List.getD_eq_getElem (_) d (by simpa using h),
    List.getD_eq_getElem _ d' h, List.getElem_map]

theorem getD_mem {α : Type} (l : List α) (k : ℕ) (d : α)
    (h : k < l.length) : l.getD k d ∈ l := by
  rw [List.getD_eq_getElem _ _ h]
  exact List.getElem_mem _

/-- `p` lies in the closed octant selected by the sign vector `sgn`. -/
def InOct (sgn p : V3 ℝ) : Prop :=
  0 ≤ sgn.x * p.x ∧ 0 ≤ sgn.y * p.y ∧ 0 ≤ sgn.z * p.z

/-- A vector of octant signs. -/
def SignVec (sgn : V3 ℝ) : Prop :=
  (sgn.x = 1 ∨ sgn.x = -1) ∧ (sgn.y = 1 ∨ sgn.y = -1) ∧
  (sgn.z = 1 ∨ sgn.z = -1)

/-- A triangle is good for a vertex table when its corner indices are
in bounds and its three corner points share a closed octant. -/
def GoodTri (rr : List (V3 ℝ)) (t : ℕ × ℕ × ℕ) : Prop :=
  t.1 < rr.length ∧ t.2.1 < rr.length ∧ t.2.2 < rr.length ∧
  ∃ sgn, SignVec sgn ∧ InOct sgn (rr.getD t.1 v3zero) ∧
    InOct sgn (rr.getD t.2.1 v3zero) ∧ InOct sgn (rr.getD t.2.2 v3zero)

/-- The subdivision invariant: all stored points are unit vectors and
all triangles are good. -/
def GoodState (st : List (V3 ℝ) × List (ℕ × ℕ × ℕ)) : Prop :=
  (∀ p ∈ st.1, normSq p = 1) ∧ ∀ t ∈ st.2, GoodTri st.1 t

theorem norm_midpt_unit (sgn u v : V3 ℝ) (hs : SignVec sgn)
    (hu : InOct sgn u) (hv : InOct sgn v) (hnu : normSq u = 1)
    (hnv : normSq v = 1) :
    normSq (norm_midpt Real.sqrt u v) = 1 ∧
    InOct sgn (norm_midpt Real.sqrt u v) := by
  obtain ⟨hsx, hsy, hsz⟩ := hs
  obtain ⟨hux, huy, huz⟩ := hu
  obtain ⟨hvx, hvy, hvz⟩ := hv
  have hcx : 0 ≤ sgn.x * ((u.x + v.x) / 2) := by nlinarith
  have hcy : 0 ≤ sgn.y * ((u.y + v.y) / 2) := by nlinarith
  have hcz : 0 ≤ sgn.z * ((u.z + v.z) / 2) := by nlinarith
  have hpos : 0 < normSq (vmid u v) := by
    by_contra hne
    push_neg at hne
    have hz : normSq (vmid u v) = 0 := le_antisymm hne (by
      simp only [normSq, vmid]
      positivity)
    simp only [normSq, vmid] at hz
    have hx : (u.x + v.x) / 2 = 0 := by
      nlinarith [sq_nonneg ((u.x + v.x) / 2), sq_nonneg ((u.y + v.y) / 2),
        sq_nonneg ((u.z + v.z) / 2)]
    have hy : (u.y + v.y) / 2 = 0 := by
      nlinarith [sq_nonneg ((u.x + v.x) / 2), sq_nonneg ((u.y + v.y) / 2),
        sq_nonneg ((u.z + v.z) / 2)]
    have hz' : (u.z + v.z) / 2 = 0 := by
      nlinarith [sq_nonneg ((u.x + v.x) / 2), sq_nonneg ((u.y + v.y) / 2),
        sq_nonneg ((u.z + v.z) / 2)]
    have hux0 : u.x = 0 := by
      rcases hsx with h | h <;> rw [h] at hux hvx <;> nlinarith
    have huy0 : u.y = 0 := by
      rcases hsy with h | h <;> rw [h] at huy hvy <;> nlinarith
    have huz0 : u.z = 0 := by
      rcases hsz with h | h <;> rw [h] at huz hvz <;> nlinarith
    rw [normSq, hux0, huy0, huz0] at hnu
    norm_num at hnu
  have hmid : norm_midpt Real.sqrt u v =
      vdivs (vmid u v) (Real.sqrt (normSq (vmid u v))) := rfl
  set s := Real.sqrt (normSq (vmid u v)) with hsdef
  have h2 : s ^ 2 = normSq (vmid u v) := Real.sq_sqrt hpos.le
  have hspos : 0 < s := Real.sqrt_pos.mpr hpos
  constructor
  · rw [hmid]
    simp only [vdivs, normSq, vmid] at h2 ⊢
    field_simp
    nlinarith [h2]
  · rw [hmid]
    refine ⟨?_, ?_, ?_⟩ <;> simp only [vdivs, vmid, InOct] <;>
      rw [← mul_div_assoc] <;> apply div_nonneg _ hspos.le
    · exact hcx
    · exact hcy
    · exact hcz

theorem oct_good : GoodState ((octRR : List (V3 ℝ)), octTris) := by
  constructor
  · intro p hp
    simp only [octRR, List.mem_cons, List.not_mem_nil, or_false] at hp
    rcases hp with rfl | rfl | rfl | rfl | rfl | rfl <;> norm_num [normSq]
  · intro t ht
    simp only [octTris, List.mem_cons, List.not_mem_nil, or_false] at ht
    rcases ht with rfl | rfl | rfl | rfl | rfl | rfl | rfl | rfl
    · exact ⟨by norm_num [octRR], by norm_num [octRR], by norm_num [octRR],
        ⟨1, 1, 1⟩, by norm_num [SignVec],
        by norm_num [InOct, octRR, List.getD],
        by norm_num [InOct, octRR, List.getD],
        by norm_num [InOct, octRR, List.getD]⟩
    · exact ⟨by norm_num [octRR], by norm_num [octRR], by norm_num [octRR],
        ⟨-1, 1, 1⟩, by norm_num [SignVec],
        by norm_num [InOct, octRR, List.getD],
        by norm_num [InOct, octRR, List.getD],
        by norm_num [InOct, octRR, List.getD]⟩
    · exact ⟨by norm_num [octRR], by norm_num [octRR], by norm_num [octRR],
        ⟨-1, -1, 1⟩, by norm_num [SignVec],
        by norm_num [InOct, octRR, List.getD],
        by norm_num [InOct, octRR, List.getD],
        by norm_num [InOct, octRR, List.getD]⟩
    · exact ⟨by norm_num [octRR], by norm_num [octRR], by norm_num [octRR],
        ⟨1, -1, 1⟩, by norm_num [SignVec],
        by norm_num [InOct, octRR, List.getD],
        by norm_num [InOct, octRR, List.getD],
        by norm_num [InOct, octRR, List.getD]⟩
    · exact ⟨by norm_num [octRR], by norm_num [octRR], by norm_num [octRR],
        ⟨1, 1, -1⟩, by norm_num [SignVec],
        by norm_num [InOct, octRR, List.getD],
        by norm_num [InOct, octRR, List.getD],
        by norm_num [InOct, octRR, List.getD]⟩
    · exact ⟨by norm_num [octRR], by norm_num [octRR], by norm_num [octRR],
        ⟨-1, 1, -1⟩, by norm_num [SignVec],
        by norm_num [InOct, octRR, List.getD],
        by norm_num [InOct, octRR, List.getD],
        by norm_num [InOct, octRR, List.getD]⟩
    · exact ⟨by norm_num [octRR], by norm_num [octRR], by norm_num [octRR],
        ⟨-1, -1, -1⟩, by norm_num [SignVec],
        by norm_num [InOct, octRR, List.getD],
        by norm_num [InOct, octRR, List.getD],
        by norm_num [InOct, octRR, List.getD]⟩
    · exact ⟨by norm_num [octRR], by norm_num [octRR], by norm_num [octRR],
        ⟨1, -1, -1⟩, by norm_num [SignVec],
        by norm_num [InOct, octRR, List.getD],
        by norm_num [InOct, octRR, List.getD],
        by norm_num [InOct, octRR, List.getD]⟩

theorem subdivideStep_good (rr : List (V3 ℝ)) (tris : List (ℕ × ℕ × ℕ))
    (hunit : ∀ p ∈ rr, normSq p = 1) (htri : ∀ t ∈ tris, GoodTri rr t) :
    GoodState (subdivideStep Real.sqrt (rr, tris)) := by
  simp only [subdivideStep, GoodState]
  constructor
  · intro p hp
    simp only [List.mem_append] at hp
    rcases hp with ((hp | hp) | hp) | hp
    · exact hunit p hp
    · rw [List.mem_map] at hp
      obtain ⟨t, ht, rfl⟩ := hp
      obtain ⟨hb1, hb2, hb3, sgn, hsv, ho1, ho2, ho3⟩ := htri t ht
      exact (norm_midpt_unit sgn _ _ hsv ho1 ho3
        (hunit _ (getD_mem _ _ _ hb1)) (hunit _ (getD_mem _ _ _ hb3))).1
    · rw [List.mem_map] at hp
      obtain ⟨t, ht, rfl⟩ := hp
      obtain ⟨hb1, hb2, hb3, sgn, hsv, ho1, ho2, ho3⟩ := htri t ht
      exact (norm_midpt_unit sgn _ _ hsv ho1 ho2
        (hunit _ (getD_mem _ _ _ hb1)) (hunit _ (getD_mem _ _ _ hb2))).1
    · rw [List.mem_map] at hp
      obtain ⟨t, ht, rfl⟩ := hp
      obtain ⟨hb1, hb2, hb3, sgn, hsv, ho1, ho2, ho3⟩ := htri t ht
      exact (norm_midpt_unit sgn _ _ hsv ho2 ho3
        (hunit _ (getD_mem _ _ _ hb2)) (hunit _ (getD_mem _ _ _ hb3))).1
  · intro t' ht'
    rw [List.mem_flatten] at ht'
    obtain ⟨child, hchild, hmem⟩ := ht'
    rw [List.mem_map] at hchild
    obtain ⟨k, hkr, rfl⟩ := hchild
    rw [List.mem_range] at hkr
    have htk := htri _ (getD_mem tris k (0, 0, 0) hkr)
    obtain ⟨hb1, hb2, hb3, sgn, hsv, ho1, ho2, ho3⟩ := htk
    have hu1 := hunit _ (getD_mem _ _ v3zero hb1)
    have hu2 := hunit _ (getD_mem _ _ v3zero hb2)
    have hu3 := hunit _ (getD_mem _ _ v3zero hb3)
    have hmidA := norm_midpt_unit sgn _ _ hsv ho1 ho3 hu1 hu3
    have hmidB := norm_midpt_unit sgn _ _ hsv ho1 ho2 hu1 hu2
    have hmidC := norm_midpt_unit sgn _ _ hsv ho2 ho3 hu2 hu3
    set tk := tris.getD k (0, 0, 0) with htk
    set n := rr.length with hn
    set ntri := tris.length with hntri
    set A := tris.map (fun t =>
      norm_midpt Real.sqrt (rr.getD t.1 v3zero) (rr.getD t.2.2 v3zero))
      with hA
    set B := tris.map (fun t =>
      norm_midpt Real.sqrt (rr.getD t.1 v3zero) (rr.getD t.2.1 v3zero))
      with hB
    set C := tris.map (fun t =>
      norm_midpt Real.sqrt (rr.getD t.2.1 v3zero) (rr.getD t.2.2 v3zero))
      with hC
    have hlA : A.length = ntri := by rw [hA, List.length_map]
    have hlB : B.length = ntri := by rw [hB, List.length_map]
    have hlC : C.length = ntri := by rw [hC, List.length_map]
    have hlen : (rr ++ A ++ B ++ C).length = n + ntri + ntri + ntri := by
      simp only [List.length_append, hlA, hlB, hlC]
    have eget0 : ∀ i, i < n → (rr ++ A ++ B ++ C).getD i v3zero =
        rr.getD i v3zero := by
      intro i hi
      rw [getD_append_lt _ _ _ _
          (by simp only [List.length_append, hlA, hlB]; omega),
        getD_append_lt _ _ _ _
          (by simp only [List.length_append, hlA]; omega),
        getD_append_lt _ _ _ _ hi]
    have egetA : ∀ j, j < ntri → (rr ++ A ++ B ++ C).getD (n + j) v3zero =
        A.getD j v3zero := by
      intro j hj
      rw [getD_append_lt _ _ _ _
          (by simp only [List.length_append, hlA, hlB]; omega),
        getD_append_lt _ _ _ _
          (by simp only [List.length_append, hlA]; omega),
        getD_append_ge _ _ _ _ (by omega)]
      congr 1
      omega
    have egetB : ∀ j, j < ntri →
        (rr ++ A ++ B ++ C).getD (n + ntri + j) v3zero = B.getD j v3zero := by
      intro j hj
      rw [getD_append_lt _ _ _ _
          (by simp only [List.length_append, hlA, hlB]; omega),
        getD_append_ge _ _ _ _
          (by simp only [List.length_append, hlA]; omega)]
      congr 1
      simp only [List.length_append, hlA]
      omega
    have egetC : ∀ j, j < ntri →
        (rr ++ A ++ B ++ C).getD (n + ntri + ntri + j) v3zero =
          C.getD j v3zero := by
      intro j hj
      rw [getD_append_ge _ _ _ _
          (by simp only [List.length_append, hlA, hlB]; omega)]
      congr 1
      simp only [List.length_append, hlA, hlB]
      omega
    have evalA : A.getD k v3zero =
        norm_midpt Real.sqrt (rr.getD tk.1 v3zero) (rr.getD tk.2.2 v3zero) := by
      rw [hA, getD_map_lt tris _ k v3zero (0, 0, 0) hkr, ← htk]
    have evalB : B.getD k v3zero =
        norm_midpt Real.sqrt (rr.getD tk.1 v3zero) (rr.getD tk.2.1 v3zero) := by
      rw [hB, getD_map_lt tris _ k v3zero (0, 0, 0) hkr, ← htk]
    have evalC : C.getD k v3zero =
        norm_midpt Real.sqrt (rr.getD tk.2.1 v3zero) (rr.getD tk.2.2 v3zero) := by
      rw [hC, getD_map_lt tris _ k v3zero (0, 0, 0) hkr, ← htk]
    simp only [List.mem_cons, List.not_mem_nil, or_false] at hmem
    rcases hmem with rfl | rfl | rfl | rfl <;> dsimp only [GoodTri]
    · refine ⟨by rw [hlen]; omega, by rw [hlen]; omega, by rw [hlen]; omega,
        sgn, hsv, ?_, ?_, ?_⟩
      · rw [eget0 _ hb1]
        exact ho1
      · rw [egetB k hkr, evalB]
        exact hmidB.2
      · rw [egetA k hkr, evalA]
        exact hmidA.2
    · refine ⟨by rw [hlen]; omega, by rw [hlen]; omega, by rw [hlen]; omega,
        sgn, hsv, ?_, ?_, ?_⟩
      · rw [egetB k hkr, evalB]
        exact hmidB.2
      · rw [eget0 _ hb2]
        exact ho2
      · rw [show n + 2 * ntri + k = n + ntri + ntri + k by ring, egetC k hkr,
          evalC]
        exact hmidC.2
    · refine ⟨by rw [hlen]; omega, by rw [hlen]; omega, by rw [hlen]; omega,
        sgn, hsv, ?_, ?_, ?_⟩
      · rw [egetA k hkr, evalA]
        exact hmidA.2
      · rw [egetB k hkr, evalB]
        exact hmidB.2
      · rw [show n + 2 * ntri + k = n + ntri + ntri + k by ring, egetC k hkr,
          evalC]
        exact hmidC.2
    · refine ⟨by rw [hlen]; omega, by rw [hlen]; omega, by rw [hlen]; omega,
        sgn, hsv, ?_, ?_, ?_⟩
      · rw [egetA k hkr, evalA]
        exact hmidA.2
      · rw [show n + 2 * ntri + k = n + ntri + ntri + k by ring, egetC k hkr,
          evalC]
        exact hmidC.2
      · rw [eget0 _ hb3]
        exact ho3

theorem iterN_good (m : ℕ) (st : List (V3 ℝ) × List (ℕ × ℕ × ℕ))
    (hg : GoodState st) :
    GoodState (iterN (subdivideStep Real.sqrt) m st) := by
  induction m generalizing st with
  | zero => exact hg
  | succ m ih =>
    rw [iterN]
    exact ih _ (subdivideStep_good st.1 st.2 hg.1 hg.2)

theorem subdivideStep_len (sqrt : K → K)
    (st : List (V3 K) × List (ℕ × ℕ × ℕ)) :
    (subdivideStep sqrt st).2.length = 4 * st.2.length := by
  simp only [subdivideStep, List.length_flatten, List.map_map]
  rw [show ((fun l => List.length l) ∘ fun k =>
    [(((st.2.getD k (0, 0, 0)).1 : ℕ), st.1.length + st.2.length + k,
      st.1.length + k),
     (st.1.length + st.2.length + k, (st.2.getD k (0, 0, 0)).2.1,
      st.1.length + 2 * st.2.length + k),
     (st.1.length + k, st.1.length + st.2.length + k,
      st.1.length + 2 * st.2.length + k),
     (st.1.length + k, st.1.length + 2 * st.2.length + k,
      (st.2.getD k (0, 0, 0)).2.2)]) = fun _ => 4 from funext fun k => rfl]
  simp [List.map_const', List.sum_replicate, smul_eq_mul, Nat.mul_comm]

theorem iterN_len (m : ℕ) (st : List (V3 ℝ) × List (ℕ × ℕ × ℕ)) :
    (iterN (subdivideStep Real.sqrt) m st).2.length =
      4 ^ m * st.2.length := by
  induction m generalizing st with
  | zero => simp [iterN]
  | succ m ih =>
    rw [iterN, ih, subdivideStep_len]
    ring

theorem dedupCorner_sub (nodes : List (V3 ℝ)) (c : V3 ℝ) :
    ∀ p ∈ (dedupCorner nodes c).1, p ∈ nodes ∨ p = c := by
  intro p hp
  rw [dedupCorner] at hp
  rcases h : whereFirst c nodes with _ | i <;> rw [h] at hp
  · simp only [List.mem_append, List.mem_singleton] at hp
    exact hp
  · exact Or.inl hp

theorem dedupTris_nodes (rr : List (V3 ℝ)) (tris : List (ℕ × ℕ × ℕ))
    (nodes0 : List (V3 ℝ))
    (hb : ∀ t ∈ tris, t.1 < rr.length ∧ t.2.1 < rr.length ∧
      t.2.2 < rr.length) :
    ∀ p ∈ (dedupTris rr tris nodes0).1, p ∈ nodes0 ∨ p ∈ rr := by
  induction tris generalizing nodes0 with
  | nil =>
    intro p hp
    rw [dedupTris] at hp
    exact Or.inl hp
  | cons t rest ih =>
    intro p hp
    obtain ⟨hb1, hb2, hb3⟩ := hb t (List.mem_cons_self t rest)
    have hbrest : ∀ t' ∈ rest, t'.1 < rr.length ∧ t'.2.1 < rr.length ∧
        t'.2.2 < rr.length := fun t' ht' => hb t' (List.mem_cons_of_mem t ht')
    simp only [dedupTris] at hp
    rcases ih _ hbrest p hp with hmem | hmem
    · rcases dedupCorner_sub _ _ p hmem with hmem2 | hmem2
      · rcases dedupCorner_sub _ _ p hmem2 with hmem3 | hmem3
        · rcases dedupCorner_sub _ _ p hmem3 with hmem4 | hmem4
          · exact Or.inl hmem4
          · exact Or.inr (hmem4 ▸ getD_mem rr t.1 v3zero hb1)
        · exact Or.inr (hmem3 ▸ getD_mem rr t.2.1 v3zero hb2)
      · exact Or.inr (hmem2 ▸ getD_mem rr t.2.2 v3zero hb3)
    · exact Or.inr hmem

theorem normSq_vscale (r : ℝ) (p : V3 ℝ) :
    normSq (vscale r p) = r ^ 2 * normSq p := by
  simp only [normSq, vscale]
  ring

/-- The six octahedron vertices in first-use order of the level-1
deduplication pass. -/
def octNodes : List (V3 K) :=
  [⟨0, 1, 0⟩, ⟨0, 0, 1⟩, ⟨1, 0, 0⟩, ⟨-1, 0, 0⟩, ⟨0, -1, 0⟩, ⟨0, 0, -1⟩]

/-- The eight octahedron triangles re-indexed into `octNodes`. -/
def octCorners : List (ℕ × ℕ × ℕ) :=
  [(0, 1, 2), (3, 1, 0), (4, 1, 3), (2, 1, 4),
   (5, 0, 2), (5, 3, 0), (5, 4, 3), (5, 2, 4)]

/-- At level 1 the subdivision loop runs zero times and deduplication
reduces the 24 triangle corners to the 6 octahedron vertices. -/
theorem tess_level1 :
    tessellate_sphere (K := ℝ) Real.sqrt 1 = .ok (octNodes, octCorners) := by
  norm_num [tessellate_sphere, tessLoop, iterN, dedupTris, dedupCorner,
    whereFirst, distSq, octRR, octTris, octNodes, octCorners]

/-- C7: as claimed.  `_tessellate_sphere` rejects every level `< 1`
with the `ValueError` (`InvalidArgument`); at level 1 it returns
exactly 6 vertices and 8 triangles (the base octahedron); for every
level `L ≥ 1` the triangle list before deduplication has exactly
`8 * 4^(L-1)` entries; and every vertex of the surface record built at
radius `rad ≥ 0` lies at distance exactly `rad` from the origin, hence
within the `1e-6` tolerance. -/
theorem c7_tessellate_sphere (L : ℤ) (rad : ℝ) (hL : 1 ≤ L)
    (hrad : 0 ≤ rad) :
    (∀ L' : ℤ, L' < 1 → tessellate_sphere (K := ℝ) Real.sqrt L' =
      .error (.valueError "# of levels must be >= 1")) ∧
    (∃ nodes corners, tessellate_sphere (K := ℝ) Real.sqrt 1 =
      .ok (nodes, corners) ∧ nodes.length = 6 ∧ corners.length = 8) ∧
    (tessLoop (K := ℝ) Real.sqrt L).2.length = 8 * 4 ^ (L - 1).toNat ∧
    (∀ s : TessSurf ℝ, tessellate_sphere_surf Real.sqrt L rad = .ok s →
      ∀ v ∈ s.rr, |Real.sqrt (normSq v) - rad| ≤ 1 / 1000000) := by
  refine ⟨?_, ?_, ?_, ?_⟩
  · intro L' hL'
    rw [tessellate_sphere, if_pos hL']
  · exact ⟨octNodes, octCorners, tess_level1, by simp [octNodes],
      by simp [octCorners]⟩
  · rw [tessLoop, iterN_len]
    simp only [octTris, List.length_cons, List.length_nil]
    ring
  · intro s hs v hv
    rw [tessellate_sphere_surf] at hs
    rcases ht : tessellate_sphere (K := ℝ) Real.sqrt L with e | pr <;>
      rw [ht] at hs
    · cases hs
    obtain ⟨nodes, corners⟩ := pr
    dsimp only at hs
    cases hs
    dsimp only at hv
    rw [List.mem_map] at hv
    obtain ⟨p, hp, rfl⟩ := hv
    rw [tessellate_sphere, if_neg (by omega)] at ht
    have hgood := iterN_good (L - 1).toNat (octRR, octTris) oct_good
    have hnodes : nodes = (dedupTris (tessLoop Real.sqrt L).1
        (tessLoop Real.sqrt L).2 []).1 := by
      have := congrArg (fun r => match r with
        | Except.ok pr => pr.1
        | Except.error _ => []) ht
      dsimp only at this
      rw [tessLoop]
      exact this.symm
    have hbounds : ∀ t ∈ (tessLoop (K := ℝ) Real.sqrt L).2,
        t.1 < (tessLoop (K := ℝ) Real.sqrt L).1.length ∧
        t.2.1 < (tessLoop (K := ℝ) Real.sqrt L).1.length ∧
        t.2.2 < (tessLoop (K := ℝ) Real.sqrt L).1.length := by
      intro t htm
      rw [tessLoop] at htm ⊢
      obtain ⟨h1, h2, h3, _⟩ := hgood.2 t htm
      exact ⟨h1, h2, h3⟩
    have hmem := dedupTris_nodes (tessLoop Real.sqrt L).1
      (tessLoop Real.sqrt L).2 [] hbounds p (hnodes ▸ hp)
    rcases hmem with hmem | hmem
    · cases hmem
    have hunit : normSq p = 1 := by
      have := hgood.1 p (by rw [tessLoop] at hmem; exact hmem)
      exact this
    rw [normSq_vscale, hunit, mul_one, Real.sqrt_sq hrad, sub_self,
      abs_zero]
    norm_num

/-- C7 witness: the theorem at level 1 with radius 1. -/
theorem c7_witness :
    (∀ L' : ℤ, L' < 1 → tessellate_sphere (K := ℝ) Real.sqrt L' =
      .error (.valueError "# of levels must be >= 1")) ∧
    (∃ nodes corners, tessellate_sphere (K := ℝ) Real.sqrt 1 =
      .ok (nodes, corners) ∧ nodes.length = 6 ∧ corners.length = 8) ∧
    (tessLoop (K := ℝ) Real.sqrt 1).2.length = 8 * 4 ^ ((1 : ℤ) - 1).toNat ∧
    (∀ s : TessSurf ℝ, tessellate_sphere_surf Real.sqrt 1 1 = .ok s →
      ∀ v ∈ s.rr, |Real.sqrt (normSq v) - 1| ≤ 1 / 1000000) :=
  c7_tessellate_sphere 1 1 le_rfl zero_le_one

/-- C10: falsified on the `nuse` part.  At level 1 the returned record
does mark every vertex in use (`inuse` is all ones, length 6 = vertex
count), but its `nuse` slot holds the numpy *module* — the source says
`nuse=np` while the point count lives in the local `npt` — so `nuse`
does not equal the number of vertices (or any integer). -/
theorem c10_nuse_is_numpy_module :
    ∃ s : TessSurf ℝ, tessellate_sphere_surf Real.sqrt 1 1 = .ok s ∧
      s.np = 6 ∧ s.inuse = List.replicate 6 1 ∧
      s.nuse = PyVal.numpyModule ∧ ∀ n : ℤ, s.nuse ≠ PyVal.int n := by
  refine ⟨⟨octNodes.map (vscale 1), 6, octCorners, octCorners, 8,
    PyVal.numpyModule, octNodes, List.replicate 6 1⟩, ?_, rfl, rfl, rfl,
    fun n h => by cases h⟩
  simp [tessellate_sphere_surf, tess_level1, octNodes, octCorners]
